import Mathlib

/-!
Verification development for the column validity (null-mask) core of a
columnar dataframe engine: the typed buffer + bit-packed validity bitmap
builder, the bulk append/merge path, accessor bounds checking, and the
recursive null-mask superimposition over nested (struct) column trees.

The corpus under `src/` contains the test suite for the builder/accessor
layer (`IntColumnVectorTest`) and the declaration of
`cudf::structs::superimpose_nulls`, but not the implementations
(`HostColumnVector`, `Builder`, `BitVectorHelper`, the superimposition
body).  Those operations are therefore modelled from the specification
(spec sections 3, 4.1-4.5, 7); each such definition carries a doc comment
starting with `Modelled from the spec:`.
-/

namespace Cudf

/-- Error kinds of the column core (spec section 7): capacity violations on
builder writes, out-of-range read accessors, and superimposition mask size
mismatches. -/
inductive CudfError where
  | CapacityExceeded
  | IndexOutOfRange
  | SizeMismatch
deriving DecidableEq, Repr

/-- Modelled from the spec: the fixed accelerator-friendly alignment
granularity (in bytes) used to pad validity allocations (spec section 3
invariant 1; the `BitVectorHelper` implementation is absent from src). -/
def paddingAlignment : Nat := 64

/-- Modelled from the spec: `allocation_size_bytes(row_count)` of section
4.1 - ceil(row_count / 8) bytes of bitmap, padded up to the alignment
granularity (`BitVectorHelper.getValidityAllocationSizeInBytes` is absent
from src). -/
def allocation_size_bytes (rowCount : Nat) : Nat :=
  ((rowCount + 7) / 8 + (paddingAlignment - 1)) / paddingAlignment * paddingAlignment

/-- Number of bits in a validity allocation for the given row count. -/
def allocBits (rowCount : Nat) : Nat := allocation_size_bytes rowCount * 8

/-- Modelled from the spec: `count_zero_bits(bitmap, length)` of section
4.1 - population count of null (false) bits over the whole bit list. -/
def countFalse (bm : List Bool) : Nat := (bm.filter (fun b => !b)).length

/-- Modelled from the spec: `count_zero_bits` restricted to `[0, len)`. -/
def count_zero_bits (bm : List Bool) (len : Nat) : Nat := countFalse (bm.take len)

/-- The 32-bit two's-complement bit pattern of a signed value, as a natural
number (data slots of an INT32 column store bit patterns). -/
def toBits32 (v : Int) : Nat := (v % (2 ^ 32 : Int)).toNat

/-- Reading a 32-bit stored pattern through the signed view (spec section
4.5: reinterpretation of the same bit pattern). -/
def toSignedInt32 (bits : Nat) : Int :=
  if bits % 2 ^ 32 < 2 ^ 31 then (bits % 2 ^ 32 : Int) else (bits % 2 ^ 32 : Int) - 2 ^ 32

/-- `Integer.toUnsignedLong`: the 32-bit pattern of a signed value read
back as a nonnegative number. -/
def toUnsignedLong (v : Int) : Nat := (v % (2 ^ 32 : Int)).toNat

/-- Modelled from the spec: an immutable built column (spec section 3).
The validity bitmap, when present, is the full padded allocation, one bit
per row, `true` = valid; `none` means all rows valid.  `rowCount` is the
data length; nested children are modelled separately (`NColumn`). -/
structure Column where
  data : List Nat
  validity : Option (List Bool)
  nullCount : Nat
deriving DecidableEq, Repr

def Column.rowCount (c : Column) : Nat := c.data.length

/-- Unchecked null query: bit `i` of the validity bitmap (absent bitmap or
padding bits read as valid, spec sections 3 and 4.1). -/
def Column.isNullU (c : Column) (i : Nat) : Bool :=
  match c.validity with
  | none => false
  | some bm => !(bm.getD i true)

/-- Modelled from the spec: bounds-checked `isNull(i)` (spec section 6),
failing with `IndexOutOfRange` on `i < 0` or `i ≥ row_count`. -/
def Column.isNull (c : Column) (i : Int) : Except CudfError Bool :=
  if i < 0 ∨ (c.rowCount : Int) ≤ i then .error .IndexOutOfRange
  else .ok (c.isNullU i.toNat)

/-- Modelled from the spec: bounds-checked `get(i)` for INT32 columns
(spec section 6), failing with `IndexOutOfRange` on out-of-range `i`. -/
def Column.getInt (c : Column) (i : Int) : Except CudfError Int :=
  if i < 0 ∨ (c.rowCount : Int) ≤ i then .error .IndexOutOfRange
  else .ok (toSignedInt32 (c.data.getD i.toNat 0))

/-- Modelled from the spec: the in-progress column builder (spec section
3): a typed buffer, a lazily-materialized validity bitmap, a running null
count; the write cursor is the data length. -/
structure Builder where
  capacity : Nat
  data : List Nat
  validity : Option (List Bool)
  nullCount : Nat
deriving DecidableEq, Repr

def Builder.cursor (b : Builder) : Nat := b.data.length

/-- Modelled from the spec: `create(type, capacity)` (spec section 4.2);
the validity bitmap is not allocated yet. -/
def Builder.create (capacity : Nat) : Builder := ⟨capacity, [], none, 0⟩

/-- Modelled from the spec: a freshly (lazily) materialized validity
bitmap, sized to the padded allocation for `capacity` rows with every bit
valid: all already-written positions are back-filled valid and padding
bits are valid (spec sections 4.2 and 4.3); null bits are cleared only by
later writes. -/
def freshBitmap (capacity : Nat) : List Bool := List.replicate (allocBits capacity) true

/-- Modelled from the spec: `append(value)` (spec section 4.2): fails with
`CapacityExceeded` at capacity, else writes the 32-bit pattern at the
cursor, marks the cursor bit valid if a bitmap exists, advances. -/
def Builder.append (b : Builder) (v : Int) : Except CudfError Builder :=
  if b.cursor = b.capacity then .error .CapacityExceeded
  else .ok { b with data := b.data ++ [toBits32 v],
                    validity := b.validity.map (fun bm => bm.set b.cursor true) }

/-- Modelled from the spec: unsigned-flavored append (spec section 4.5):
the caller supplies the 32-bit pattern directly; storage is identical to
the signed path. -/
def Builder.appendUnsigned (b : Builder) (v : Nat) : Except CudfError Builder :=
  if b.cursor = b.capacity then .error .CapacityExceeded
  else .ok { b with data := b.data ++ [v % 2 ^ 32],
                    validity := b.validity.map (fun bm => bm.set b.cursor true) }

/-- Modelled from the spec: `append_null()` (spec section 4.2): fails with
`CapacityExceeded` at capacity; lazily allocates the bitmap (all prior
positions valid), writes the deterministic default 0 into the data slot,
clears the cursor bit, bumps the running null count, advances. -/
def Builder.appendNull (b : Builder) : Except CudfError Builder :=
  if b.cursor = b.capacity then .error .CapacityExceeded
  else
    let bm := b.validity.getD (freshBitmap b.capacity)
    .ok { capacity := b.capacity, data := b.data ++ [0],
          validity := some (bm.set b.cursor false),
          nullCount := b.nullCount + 1 }

/-- Modelled from the spec: the bit-aligned copy of section 4.3, stated by
its correctness contract: bit `d + k` of the destination becomes bit
`s + k` of the source for `k < len`, all other destination bits are
unchanged (a source read past its allocation yields valid, matching the
all-valid padding contract). -/
def copyBits (dst : List Bool) (d : Nat) (src : List Bool) (s : Nat) : Nat → List Bool
  | 0 => dst
  | len + 1 => (copyBits dst d src s len).set (d + len) (src.getD (s + len) true)

/-- Modelled from the spec: `append_bulk` (spec section 4.2): fails with
`CapacityExceeded` if `cursor + length > capacity`; otherwise copies the
elements and, via the bit-aligned merge, the validity bits; if the
destination had no bitmap and the source contributes a null, the bitmap is
lazily allocated back-filled valid before the copy; a source without a
bitmap contributes all-valid bits. -/
def Builder.appendBulk (b : Builder) (srcData : List Nat) (srcValidity : Option (List Bool)) :
    Except CudfError Builder :=
  let len := srcData.length
  if b.capacity < b.cursor + len then .error .CapacityExceeded
  else
    let srcNulls : Nat :=
      match srcValidity with
      | some sv => count_zero_bits sv len
      | none => 0
    let dstBm : Option (List Bool) :=
      match b.validity with
      | some bm => some bm
      | none => if srcNulls = 0 then none else some (freshBitmap b.capacity)
    let newBm : Option (List Bool) :=
      match dstBm with
      | some bm =>
          some (copyBits bm b.cursor
            (match srcValidity with
             | some sv => sv
             | none => List.replicate len true) 0 len)
      | none => none
    .ok { capacity := b.capacity, data := b.data ++ srcData,
          validity := newBm, nullCount := b.nullCount + srcNulls }

/-- Modelled from the spec: `build()` (spec section 4.2): the logical row
count is the cursor, the null count is the running count. -/
def Builder.build (b : Builder) : Column := ⟨b.data, b.validity, b.nullCount⟩

/-- Appending a whole built column into a builder (the `dst.append(src)`
of the test suite), delegating to `append_bulk`. -/
def Builder.appendVector (b : Builder) (src : Column) : Except CudfError Builder :=
  b.appendBulk src.data src.validity

/-- A single builder call: append a (signed) value or append a null. -/
inductive AppendOp where
  | val (v : Int)
  | null
deriving DecidableEq, Repr

def AppendOp.isNullOp : AppendOp → Bool
  | .null => true
  | .val _ => false

/-- The 32-bit pattern an op stores in its data slot (`append_null`
writes the deterministic default 0). -/
def AppendOp.storedBits : AppendOp → Nat
  | .null => 0
  | .val v => toBits32 v

def Builder.applyOp (b : Builder) : AppendOp → Except CudfError Builder
  | .val v => b.append v
  | .null => b.appendNull

def runOpsFrom (b : Builder) : List AppendOp → Except CudfError Builder
  | [] => .ok b
  | op :: rest =>
    match b.applyOp op with
    | .error e => .error e
    | .ok b2 => runOpsFrom b2 rest

/-- Running a sequence of append calls against a fresh builder. -/
def runOps (capacity : Nat) (ops : List AppendOp) : Except CudfError Builder :=
  runOpsFrom (Builder.create capacity) ops

/-- Closed form of the validity bitmap after a sequence of append calls:
bit `i` is the validity of op `i`, bits past the ops (unwritten and
padding positions) are valid. -/
def bitmapOf (capacity : Nat) (ops : List AppendOp) : List Bool :=
  (List.range (allocBits capacity)).map (fun i => !(ops.getD i (.val 0)).isNullOp)

/-- Closed form of the builder state after a sequence of append calls. -/
def mkBuilder (capacity : Nat) (ops : List AppendOp) : Builder :=
  { capacity := capacity
    data := ops.map AppendOp.storedBits
    validity := if ops.any AppendOp.isNullOp then some (bitmapOf capacity ops) else none
    nullCount := ops.countP (fun op => op.isNullOp) }

/-- `HostColumnVector.fromInts`-style construction: build from a literal
sequence of signed values at exact capacity. -/
def fromInts (vs : List Int) : Column :=
  match runOps vs.length (vs.map AppendOp.val) with
  | .ok b => b.build
  | .error _ => (Builder.create 0).build

def runUnsignedFrom (b : Builder) : List Nat → Except CudfError Builder
  | [] => .ok b
  | v :: rest =>
    match b.appendUnsigned v with
    | .error e => .error e
    | .ok b2 => runUnsignedFrom b2 rest

/-- `HostColumnVector.fromUnsignedInts`-style construction: build from a
literal sequence of unsigned 32-bit patterns at exact capacity. -/
def fromUnsignedInts (vs : List Nat) : Column :=
  match runUnsignedFrom (Builder.create vs.length) vs with
  | .ok b => b.build
  | .error _ => (Builder.create 0).build

/-! Basic lemmas about `List.getD` and the helper definitions. -/

theorem getD_of_lt {α : Type} {l : List α} {i : Nat} (d : α) (h : i < l.length) :
    l.getD i d = l[i] := by
  simp [List.getD_eq_getElem?_getD, List.getElem?_eq_getElem h]

theorem getD_of_ge {α : Type} {l : List α} {i : Nat} (d : α) (h : l.length ≤ i) :
    l.getD i d = d := by
  simp [List.getD_eq_getElem?_getD, List.getElem?_eq_none h]

theorem getD_set_self {α : Type} {l : List α} {i : Nat} {v d : α} (h : i < l.length) :
    (l.set i v).getD i d = v := by
  simp [List.getD_eq_getElem?_getD, List.getElem?_set_self h]

theorem getD_set_ne {α : Type} {l : List α} {i j : Nat} {v d : α} (h : i ≠ j) :
    (l.set i v).getD j d = l.getD j d := by
  simp [List.getD_eq_getElem?_getD, List.getElem?_set_ne h]

theorem getD_rangeMap {α : Type} {n i : Nat} (f : Nat → α) (d : α) (h : i < n) :
    ((List.range n).map f).getD i d = f i := by
  have hlen : i < ((List.range n).map f).length := by simpa using h
  rw [getD_of_lt _ hlen]
  simp

theorem getD_append_lt {α : Type} {l l' : List α} {i : Nat} (d : α) (h : i < l.length) :
    (l ++ l').getD i d = l.getD i d := by
  rw [List.getD_eq_getElem?_getD, List.getElem?_append_left h, List.getD_eq_getElem?_getD]

theorem getD_append_ge {α : Type} {l l' : List α} {i : Nat} (d : α) (h : l.length ≤ i) :
    (l ++ l').getD i d = l'.getD (i - l.length) d := by
  rw [List.getD_eq_getElem?_getD, List.getElem?_append_right h, List.getD_eq_getElem?_getD]

theorem getD_true_false_lt {l : List Bool} {i : Nat} (h : l.getD i true = false) :
    i < l.length := by
  by_contra hge
  rw [getD_of_ge true (by omega)] at h
  simp at h

/-- The padded validity allocation always covers the row count:
`allocation_size_bytes(n) * 8 ≥ n`. -/
theorem allocBits_ge (n : Nat) : n ≤ allocBits n := by
  simp only [allocBits, allocation_size_bytes, paddingAlignment]
  omega

theorem bitmapOf_length (capacity : Nat) (ops : List AppendOp) :
    (bitmapOf capacity ops).length = allocBits capacity := by
  simp [bitmapOf]

theorem bitmapOf_getD_lt {capacity : Nat} {ops : List AppendOp} {i : Nat}
    (h : i < allocBits capacity) (d : Bool) :
    (bitmapOf capacity ops).getD i d = !(ops.getD i (.val 0)).isNullOp := by
  unfold bitmapOf
  rw [getD_rangeMap _ _ h]

/-- Every bit at or past the written ops reads valid, including padding. -/
theorem bitmapOf_getD_true {capacity : Nat} {ops : List AppendOp} {i : Nat}
    (h : ops.length ≤ i) :
    (bitmapOf capacity ops).getD i true = true := by
  by_cases hlt : i < allocBits capacity
  · rw [bitmapOf_getD_lt hlt, getD_of_ge _ h]
    rfl
  · rw [getD_of_ge]
    rw [bitmapOf_length]
    omega

theorem freshBitmap_getD {capacity i : Nat} (d : Bool) :
    (freshBitmap capacity).getD i d = (if i < allocBits capacity then true else d) := by
  by_cases h : i < allocBits capacity
  · rw [getD_of_lt _ (by simpa [freshBitmap] using h)]
    simp [freshBitmap, h]
  · rw [getD_of_ge _ (by simpa [freshBitmap] using Nat.le_of_not_lt h)]
    simp [h]

/-! Lemmas about `copyBits`: length preservation, bits inside the copied
range come from the source, bits outside are untouched. -/

theorem copyBits_length (dst : List Bool) (d : Nat) (src : List Bool) (s len : Nat) :
    (copyBits dst d src s len).length = dst.length := by
  induction len with
  | zero => rfl
  | succ n ih => simp [copyBits, ih]

theorem copyBits_getD_out {dst : List Bool} {d : Nat} {src : List Bool} {s len : Nat}
    {i : Nat} (x : Bool) (h : i < d ∨ d + len ≤ i) :
    (copyBits dst d src s len).getD i x = dst.getD i x := by
  induction len with
  | zero => rfl
  | succ n ih =>
    have hne : d + n ≠ i := by omega
    rw [copyBits, getD_set_ne hne]
    exact ih (by omega)

theorem copyBits_getD_in {dst : List Bool} {d : Nat} {src : List Bool} {s len : Nat}
    {k : Nat} (x : Bool) (hk : k < len) (hd : d + k < dst.length) :
    (copyBits dst d src s len).getD (d + k) x = src.getD (s + k) true := by
  induction len with
  | zero => omega
  | succ n ih =>
    by_cases hkn : k = n
    · subst hkn
      rw [copyBits, getD_set_self (by rw [copyBits_length]; omega)]
    · have hne : d + n ≠ d + k := by omega
      rw [copyBits, getD_set_ne hne]
      exact ih (by omega)

theorem bitlist_ext {l l' : List Bool} (hlen : l.length = l'.length)
    (h : ∀ i, i < l.length → l.getD i true = l'.getD i true) : l = l' := by
  apply List.ext_getElem hlen
  intro i h1 h2
  have hi := h i h1
  rwa [getD_of_lt _ h1, getD_of_lt _ h2] at hi

/-- With no null appended yet, the tracked bitmap is all-valid, i.e. what
lazy allocation would materialize. -/
theorem bitmapOf_no_null {capacity : Nat} {ops : List AppendOp}
    (h : ops.any AppendOp.isNullOp = false) :
    bitmapOf capacity ops = freshBitmap capacity := by
  apply bitlist_ext
  · simp [bitmapOf_length, freshBitmap]
  · intro i hi
    rw [bitmapOf_length] at hi
    rw [bitmapOf_getD_lt hi, freshBitmap_getD, if_pos hi]
    by_cases hlen : i < ops.length
    · rw [getD_of_lt _ hlen]
      have hmem : ops[i] ∈ ops := List.getElem_mem hlen
      have := List.any_eq_false.mp h _ hmem
      simp [this]
    · rw [getD_of_ge _ (by omega)]
      rfl

/-- Appending one more op updates the closed-form bitmap by setting the
cursor bit. -/
theorem bitmapOf_snoc {capacity : Nat} {ops : List AppendOp} (op : AppendOp)
    (h : ops.length < allocBits capacity) :
    (bitmapOf capacity ops).set ops.length (!op.isNullOp)
      = bitmapOf capacity (ops ++ [op]) := by
  apply bitlist_ext
  · simp [bitmapOf_length]
  · intro i hi
    rw [List.length_set, bitmapOf_length] at hi
    by_cases hip : i = ops.length
    · subst hip
      rw [getD_set_self (by rw [bitmapOf_length]; omega), bitmapOf_getD_lt hi,
        getD_append_ge _ (Nat.le_refl _)]
      simp
    · rw [getD_set_ne (fun hc => hip hc.symm), bitmapOf_getD_lt hi, bitmapOf_getD_lt hi]
      by_cases hlt : i < ops.length
      · rw [getD_append_lt _ hlt]
      · rw [getD_of_ge _ (by omega), getD_append_ge _ (by omega),
          getD_of_ge _ (by simp; omega)]

/-- One builder call on the closed-form state yields the closed form of
the extended op sequence. -/
theorem applyOp_mkBuilder {capacity : Nat} {ops : List AppendOp} (op : AppendOp)
    (h : ops.length < capacity) :
    (mkBuilder capacity ops).applyOp op = .ok (mkBuilder capacity (ops ++ [op])) := by
  have hnec : ¬(ops.length = capacity) := by omega
  have halloc : ops.length < allocBits capacity :=
    Nat.lt_of_lt_of_le h (allocBits_ge capacity)
  cases op with
  | val v =>
    by_cases hany : ops.any AppendOp.isNullOp
    · have hany' : (ops ++ [AppendOp.val v]).any AppendOp.isNullOp = true := by
        simp [List.any_append, hany]
      have hbm := @bitmapOf_snoc capacity ops (.val v) halloc
      simp only [AppendOp.isNullOp, Bool.not_false] at hbm
      simp [Builder.applyOp, Builder.append, Builder.cursor, mkBuilder, hany, hany',
        hnec, hbm, AppendOp.storedBits, List.countP_append, AppendOp.isNullOp]
    · have hany0 : ops.any AppendOp.isNullOp = false := by
        simpa using hany
      have hany' : (ops ++ [AppendOp.val v]).any AppendOp.isNullOp = false := by
        simp [List.any_append, hany0, AppendOp.isNullOp]
      simp [Builder.applyOp, Builder.append, Builder.cursor, mkBuilder, hany0, hany',
        hnec, AppendOp.storedBits, List.countP_append, AppendOp.isNullOp]
  | null =>
    have hany' : (ops ++ [AppendOp.null]).any AppendOp.isNullOp = true := by
      simp [List.any_append, AppendOp.isNullOp]
    have hbm := @bitmapOf_snoc capacity ops .null halloc
    simp only [AppendOp.isNullOp, Bool.not_true] at hbm
    by_cases hany : ops.any AppendOp.isNullOp
    · simp [Builder.applyOp, Builder.appendNull, Builder.cursor, mkBuilder, hany, hany',
        hnec, hbm, AppendOp.storedBits, List.countP_append, AppendOp.isNullOp]
    · have hany0 : ops.any AppendOp.isNullOp = false := by simpa using hany
      rw [@bitmapOf_no_null capacity ops hany0] at hbm
      simp [Builder.applyOp, Builder.appendNull, Builder.cursor, mkBuilder, hany0, hany',
        hnec, hbm, AppendOp.storedBits, List.countP_append, AppendOp.isNullOp]

theorem runOpsFrom_append (b : Builder) (l l' : List AppendOp) :
    runOpsFrom b (l ++ l')
      = match runOpsFrom b l with
        | .error e => .error e
        | .ok b2 => runOpsFrom b2 l' := by
  induction l generalizing b with
  | nil => rfl
  | cons op rest ih =>
    simp only [List.cons_append, runOpsFrom]
    cases b.applyOp op with
    | error e => rfl
    | ok b2 => exact ih b2

/-- A sequence of appends within capacity succeeds and produces exactly
the closed-form builder state. -/
theorem runOps_eq (capacity : Nat) (ops : List AppendOp) (h : ops.length ≤ capacity) :
    runOps capacity ops = .ok (mkBuilder capacity ops) := by
  induction ops using List.reverseRecOn with
  | nil =>
    simp [runOps, runOpsFrom, mkBuilder, Builder.create]
  | append_singleton l op ih =>
    rw [List.length_append, List.length_cons, List.length_nil] at h
    have hl : l.length ≤ capacity := by omega
    unfold runOps at ih ⊢
    rw [runOpsFrom_append, ih hl]
    have happ := @applyOp_mkBuilder capacity l op (by omega)
    simp only [runOpsFrom, happ]

theorem countFalse_append (a b : List Bool) :
    countFalse (a ++ b) = countFalse a + countFalse b := by
  simp [countFalse, List.filter_append]

theorem count_zero_bits_succ (bm : List Bool) (n : Nat) (h : n < bm.length) :
    count_zero_bits bm (n + 1)
      = count_zero_bits bm n + (if bm.getD n true then 0 else 1) := by
  unfold count_zero_bits
  rw [List.take_succ, List.getElem?_eq_getElem h, countFalse_append, getD_of_lt _ h]
  cases hv : bm[n] <;> simp [countFalse, hv]

/-- Counting null bits over the logical range of a bitmap that mirrors an
op sequence yields the number of null ops. -/
theorem count_zero_bits_of_ops (ops : List AppendOp) :
    ∀ bm : List Bool,
      (∀ i, i < ops.length → bm.getD i true = !(ops.getD i (.val 0)).isNullOp) →
      ops.length ≤ bm.length →
      count_zero_bits bm ops.length = ops.countP (fun op => op.isNullOp) := by
  induction ops using List.reverseRecOn with
  | nil => intro bm _ _; rfl
  | append_singleton l op ih =>
    intro bm hbits hlen
    rw [List.length_append, List.length_cons, List.length_nil] at hlen ⊢
    have hlt : l.length < bm.length := by omega
    rw [count_zero_bits_succ bm l.length hlt]
    have hl : count_zero_bits bm l.length = l.countP (fun op => op.isNullOp) := by
      apply ih bm _ (by omega)
      intro i hi
      rw [hbits i (by simp; omega), getD_append_lt _ hi]
    have hop : bm.getD l.length true = !op.isNullOp := by
      rw [hbits l.length (by simp), getD_append_ge _ (Nat.le_refl _)]
      simp
    rw [hl, hop, List.countP_append]
    cases hn : op.isNullOp <;> simp [hn]

theorem storedBits_getD (ops : List AppendOp) (i : Nat) :
    (ops.map AppendOp.storedBits).getD i 0 = (ops.getD i (.val 0)).storedBits := by
  by_cases h : i < ops.length
  · rw [getD_of_lt _ (by simpa using h), getD_of_lt _ h]
    simp
  · rw [getD_of_ge _ (by simpa using Nat.le_of_not_lt h), getD_of_ge _ (Nat.le_of_not_lt h)]
    rfl

/-- Null status of any row of a closed-form built column: row `i` is null
exactly when op `i` was an `append_null`; rows past the ops (and padding
bits) read valid. -/
theorem mkBuilder_isNullU (capacity : Nat) (ops : List AppendOp) (i : Nat)
    (hcap : ops.length ≤ capacity) :
    (Builder.build (mkBuilder capacity ops)).isNullU i = (ops.getD i (.val 0)).isNullOp := by
  by_cases hany : ops.any AppendOp.isNullOp
  · simp only [Builder.build, mkBuilder, hany, if_true, Column.isNullU]
    by_cases hi : i < allocBits capacity
    · rw [bitmapOf_getD_lt hi]
      simp
    · have h1 : capacity ≤ allocBits capacity := allocBits_ge capacity
      rw [getD_of_ge _ (by rw [bitmapOf_length]; omega),
        getD_of_ge (α := AppendOp) _ (by omega)]
      rfl
  · have hany0 : ops.any AppendOp.isNullOp = false := by simpa using hany
    simp only [Builder.build, mkBuilder, hany0, Bool.false_eq_true, if_false, Column.isNullU]
    by_cases hi : i < ops.length
    · rw [getD_of_lt _ hi]
      have hmem : ops[i] ∈ ops := List.getElem_mem hi
      have := List.any_eq_false.mp hany0 _ hmem
      simp [this]
    · rw [getD_of_ge _ (Nat.le_of_not_lt hi)]
      rfl

/-- The bit-aligned merge of source validity bits into a destination
bitmap that mirrors the already-appended ops yields exactly the bitmap of
the concatenated op sequence. -/
theorem copyBits_eq_bitmapOf_append {capacity : Nat} {ops srcOps : List AppendOp}
    (hfit : ops.length + srcOps.length ≤ capacity)
    (base : List Bool) (hbaselen : base.length = allocBits capacity)
    (hbase : ∀ i, i < allocBits capacity →
      base.getD i true = !(ops.getD i (.val 0)).isNullOp)
    (sv : List Bool)
    (hsv : ∀ k, k < srcOps.length → sv.getD k true = !(srcOps.getD k (.val 0)).isNullOp) :
    copyBits base ops.length sv 0 srcOps.length = bitmapOf capacity (ops ++ srcOps) := by
  have hcap : capacity ≤ allocBits capacity := allocBits_ge capacity
  apply bitlist_ext
  · rw [copyBits_length, hbaselen, bitmapOf_length]
  · intro i hi
    rw [copyBits_length, hbaselen] at hi
    rw [bitmapOf_getD_lt hi]
    by_cases h1 : i < ops.length
    · rw [copyBits_getD_out _ (Or.inl h1), hbase i hi, getD_append_lt _ h1]
    · by_cases h2 : i < ops.length + srcOps.length
      · obtain ⟨k, rfl⟩ : ∃ k, i = ops.length + k := ⟨i - ops.length, by omega⟩
        have hd2 : ops.length + k < base.length := by rw [hbaselen]; omega
        have hin := @copyBits_getD_in base ops.length sv 0 srcOps.length k true
          (by omega) hd2
        rw [hin, Nat.zero_add, hsv k (by omega),
          @getD_append_ge AppendOp ops srcOps (ops.length + k) (.val 0) (by omega)]
        have hsub : ops.length + k - ops.length = k := by omega
        rw [hsub]
      · rw [copyBits_getD_out _ (Or.inr (by omega)), hbase i hi,
          getD_of_ge (α := AppendOp) _ (by omega),
          getD_of_ge (α := AppendOp) _ (by simp; omega)]

/-- Bulk-appending a built source column into a builder produces exactly
the builder state of the concatenated op sequences: values, null bits,
lazy bitmap allocation and the running null count all agree with having
appended the source's ops one by one. -/
theorem appendBulk_mkBuilder (capacity scap : Nat) (ops srcOps : List AppendOp)
    (hfit : ops.length + srcOps.length ≤ capacity) (hscap : srcOps.length ≤ scap) :
    (mkBuilder capacity ops).appendVector (Builder.build (mkBuilder scap srcOps))
      = .ok (mkBuilder capacity (ops ++ srcOps)) := by
  have hcap : capacity ≤ allocBits capacity := allocBits_ge capacity
  have hscap' : srcOps.length ≤ allocBits scap :=
    Nat.le_trans hscap (allocBits_ge scap)
  have hlen : (srcOps.map AppendOp.storedBits).length = srcOps.length := by simp
  have hnofit : ¬(capacity < ops.length + srcOps.length) := by omega
  have hsrccount : count_zero_bits (bitmapOf scap srcOps) srcOps.length
      = srcOps.countP (fun op => op.isNullOp) := by
    apply count_zero_bits_of_ops
    · intro i hi
      exact bitmapOf_getD_lt (Nat.lt_of_lt_of_le hi hscap') _
    · rw [bitmapOf_length]; exact hscap'
  by_cases hanyS : srcOps.any AppendOp.isNullOp
  · -- source carries nulls: its bitmap is present and contributes them
    have hpos : srcOps.countP (fun op => op.isNullOp) ≠ 0 := by
      rw [Ne, List.countP_eq_zero]
      obtain ⟨x, hx, hpx⟩ := List.any_eq_true.mp hanyS
      exact fun hall => hall x hx hpx
    by_cases hanyD : ops.any AppendOp.isNullOp
    · have hany2 : (ops ++ srcOps).any AppendOp.isNullOp = true := by
        simp [List.any_append, hanyD]
      have hbm := @copyBits_eq_bitmapOf_append capacity ops srcOps hfit
        (bitmapOf capacity ops) (bitmapOf_length capacity ops)
        (fun i hi => bitmapOf_getD_lt hi _)
        (bitmapOf scap srcOps)
        (fun k hk => bitmapOf_getD_lt (Nat.lt_of_lt_of_le hk hscap') _)
      simp only [Builder.appendVector, Builder.build, mkBuilder, hanyD, hanyS, if_true,
        Builder.appendBulk, Builder.cursor, hlen, List.length_map, hnofit, if_false,
        hsrccount, hany2]
      rw [hbm]
      simp [List.countP_append]
    · have hanyD0 : ops.any AppendOp.isNullOp = false := by simpa using hanyD
      have hany2 : (ops ++ srcOps).any AppendOp.isNullOp = true := by
        simp [List.any_append, hanyS]
      have hbm := @copyBits_eq_bitmapOf_append capacity ops srcOps hfit
        (freshBitmap capacity)
        (by simp [freshBitmap])
        (fun i hi => by
          rw [freshBitmap_getD, if_pos hi]
          by_cases hio : i < ops.length
          · rw [getD_of_lt _ hio]
            have := List.any_eq_false.mp hanyD0 _ (List.getElem_mem hio)
            simp [this]
          · rw [getD_of_ge (α := AppendOp) _ (by omega)]
            rfl)
        (bitmapOf scap srcOps)
        (fun k hk => bitmapOf_getD_lt (Nat.lt_of_lt_of_le hk hscap') _)
      simp only [Builder.appendVector, Builder.build, mkBuilder, hanyD0, hanyS,
        Bool.false_eq_true, if_false, if_true, Builder.appendBulk, Builder.cursor,
        hlen, List.length_map, hnofit, hsrccount, hpos, hany2]
      rw [hbm]
      simp [List.countP_append, List.countP_eq_zero.mpr (List.any_eq_false.mp hanyD0)]
  · -- source has no nulls: it carries no bitmap, contributing all-valid bits
    have hanyS0 : srcOps.any AppendOp.isNullOp = false := by simpa using hanyS
    have hcnt0 : srcOps.countP (fun op => op.isNullOp) = 0 :=
      List.countP_eq_zero.mpr (List.any_eq_false.mp hanyS0)
    have hsvrep : ∀ k, k < srcOps.length →
        (List.replicate srcOps.length true).getD k true
          = !(srcOps.getD k (.val 0)).isNullOp := by
      intro k hk
      rw [getD_of_lt _ (by simpa using hk), getD_of_lt _ hk]
      have := List.any_eq_false.mp hanyS0 _ (List.getElem_mem hk)
      simp [this]
    by_cases hanyD : ops.any AppendOp.isNullOp
    · have hany2 : (ops ++ srcOps).any AppendOp.isNullOp = true := by
        simp [List.any_append, hanyD]
      have hbm := @copyBits_eq_bitmapOf_append capacity ops srcOps hfit
        (bitmapOf capacity ops) (bitmapOf_length capacity ops)
        (fun i hi => bitmapOf_getD_lt hi _)
        (List.replicate srcOps.length true) hsvrep
      simp only [Builder.appendVector, Builder.build, mkBuilder, hanyD, hanyS0, if_true,
        Bool.false_eq_true, if_false, Builder.appendBulk, Builder.cursor, hlen,
        List.length_map, hnofit, hany2]
      rw [hbm]
      simp [List.countP_append, hcnt0]
    · have hanyD0 : ops.any AppendOp.isNullOp = false := by simpa using hanyD
      have hany2 : (ops ++ srcOps).any AppendOp.isNullOp = false := by
        simp [List.any_append, hanyD0, hanyS0]
      simp only [Builder.appendVector, Builder.build, mkBuilder, hanyD0, hanyS0,
        Bool.false_eq_true, if_false, Builder.appendBulk, Builder.cursor, hlen,
        List.length_map, hnofit, hany2]
      simp [List.countP_append, hcnt0,
        List.countP_eq_zero.mpr (List.any_eq_false.mp hanyD0)]

/-! Claim theorems for the builder/accessor layer. -/

instance exceptDecEq {ε α : Type} [DecidableEq ε] [DecidableEq α] :
    DecidableEq (Except ε α) := fun a b =>
  match a, b with
  | .error e, .error f =>
    if h : e = f then isTrue (by rw [h]) else isFalse (fun hc => h (Except.error.inj hc))
  | .ok x, .ok y =>
    if h : x = y then isTrue (by rw [h]) else isFalse (fun hc => h (Except.ok.inj hc))
  | .error _, .ok _ => isFalse (fun hc => Except.noConfusion hc)
  | .ok _, .error _ => isFalse (fun hc => Except.noConfusion hc)

/-- C5: for every sequence of `append`/`append_null` calls not exceeding
capacity, the built column's `null_count` equals the number of
`append_null` calls, and `isNull(i)` is true exactly when row `i` was
produced by `append_null`. -/
theorem build_null_count_matches_ops (capacity : Nat) (ops : List AppendOp) (b : Builder)
    (hcap : ops.length ≤ capacity) (hrun : runOps capacity ops = .ok b) :
    (Builder.build b).nullCount = ops.countP (fun op => op.isNullOp) ∧
    ∀ i : Nat, i < ops.length →
      (Builder.build b).isNull (i : Int) = .ok (ops.getD i (.val 0)).isNullOp := by
  rw [runOps_eq capacity ops hcap] at hrun
  obtain rfl : mkBuilder capacity ops = b := Except.ok.inj hrun
  constructor
  · simp [Builder.build, mkBuilder]
  · intro i hi
    have hrow : (Builder.build (mkBuilder capacity ops)).rowCount = ops.length := by
      simp [Builder.build, Column.rowCount, mkBuilder]
    unfold Column.isNull
    rw [if_neg (by rw [hrow]; omega)]
    rw [Int.toNat_natCast, mkBuilder_isNullU capacity ops i hcap]

set_option maxRecDepth 8000 in
/-- Witness for C5: the test vector `2,3,4,5,6,7,null,null` has null
count 2 and `isNull` true exactly on the two trailing rows. -/
theorem build_null_count_matches_ops_witness :
    ([AppendOp.val 2, .val 3, .val 4, .val 5, .val 6, .val 7, .null, .null].length ≤ 8 ∧
     runOps 8 [AppendOp.val 2, .val 3, .val 4, .val 5, .val 6, .val 7, .null, .null]
       = .ok (mkBuilder 8 [AppendOp.val 2, .val 3, .val 4, .val 5, .val 6, .val 7, .null, .null])) ∧
    ((Builder.build (mkBuilder 8 [AppendOp.val 2, .val 3, .val 4, .val 5, .val 6, .val 7, .null, .null])).nullCount
        = [AppendOp.val 2, .val 3, .val 4, .val 5, .val 6, .val 7, .null, .null].countP (fun op => op.isNullOp) ∧
     ∀ i : Nat, i < [AppendOp.val 2, .val 3, .val 4, .val 5, .val 6, .val 7, .null, .null].length →
       (Builder.build (mkBuilder 8 [AppendOp.val 2, .val 3, .val 4, .val 5, .val 6, .val 7, .null, .null])).isNull (i : Int)
         = .ok ([AppendOp.val 2, .val 3, .val 4, .val 5, .val 6, .val 7, .null, .null].getD i (.val 0)).isNullOp) :=
  ⟨⟨by decide, by decide⟩,
   build_null_count_matches_ops 8
     [AppendOp.val 2, .val 3, .val 4, .val 5, .val 6, .val 7, .null, .null]
     (mkBuilder 8 [AppendOp.val 2, .val 3, .val 4, .val 5, .val 6, .val 7, .null, .null])
     (by decide) (by decide)⟩

/-- C4: the padded validity allocation covers every row count
(`allocation_size_bytes(n) * 8 ≥ n`), and in any built column carrying a
bitmap, every bit from the logical length up to the allocated size reads
valid, never null. -/
theorem allocation_covers_and_padding_valid :
    (∀ n : Nat, n ≤ allocation_size_bytes n * 8) ∧
    ∀ capacity : Nat, ∀ ops : List AppendOp, ∀ b : Builder, ∀ bm : List Bool,
      ops.length ≤ capacity → runOps capacity ops = .ok b →
      (Builder.build b).validity = some bm →
      ∀ i : Nat, (Builder.build b).rowCount ≤ i →
        i < allocation_size_bytes ((Builder.build b).rowCount) * 8 →
        bm.getD i true = true := by
  constructor
  · exact fun n => allocBits_ge n
  · intro capacity ops b bm hcap hrun hval i hrow hallo
    rw [runOps_eq capacity ops hcap] at hrun
    obtain rfl : mkBuilder capacity ops = b := Except.ok.inj hrun
    rw [Builder.build, Column.rowCount] at hrow
    simp only [mkBuilder] at hrow
    rw [List.length_map] at hrow
    by_cases hany : ops.any AppendOp.isNullOp
    · simp only [Builder.build, mkBuilder, hany, if_true] at hval
      obtain rfl : bitmapOf capacity ops = bm := Option.some.inj hval
      exact bitmapOf_getD_true hrow
    · have hany0 : ops.any AppendOp.isNullOp = false := by simpa using hany
      simp [Builder.build, mkBuilder, hany0] at hval

set_option maxRecDepth 8000 in
/-- Witness for C4: row count 2 over capacity 2 with one null: padding
bit 2 of the 64-byte allocation reads valid. -/
theorem allocation_covers_and_padding_valid_witness :
    (5 ≤ allocation_size_bytes 5 * 8) ∧
    ([AppendOp.val 1, AppendOp.null].length ≤ 2 ∧
     runOps 2 [AppendOp.val 1, AppendOp.null] = .ok (mkBuilder 2 [AppendOp.val 1, AppendOp.null]) ∧
     (Builder.build (mkBuilder 2 [AppendOp.val 1, AppendOp.null])).validity
       = some (bitmapOf 2 [AppendOp.val 1, AppendOp.null]) ∧
     (Builder.build (mkBuilder 2 [AppendOp.val 1, AppendOp.null])).rowCount ≤ 2 ∧
     2 < allocation_size_bytes ((Builder.build (mkBuilder 2 [AppendOp.val 1, AppendOp.null])).rowCount) * 8) ∧
    (bitmapOf 2 [AppendOp.val 1, AppendOp.null]).getD 2 true = true :=
  ⟨allocation_covers_and_padding_valid.1 5,
   ⟨by decide, by decide, by decide, by decide, by decide⟩,
   allocation_covers_and_padding_valid.2 2 [AppendOp.val 1, AppendOp.null]
     (mkBuilder 2 [AppendOp.val 1, AppendOp.null])
     (bitmapOf 2 [AppendOp.val 1, AppendOp.null])
     (by decide) (by decide) (by decide) 2 (by decide) (by decide)⟩

/-- C6: bounds-checked single-element accessors `get(i)` and `isNull(i)`
fail deterministically with `IndexOutOfRange` for `i < 0` or
`i ≥ row_count`; the accessors are pure functions on an immutable column,
so a failed access leaves the column unchanged. -/
theorem accessor_out_of_range (c : Column) (i : Int)
    (h : i < 0 ∨ (c.rowCount : Int) ≤ i) :
    c.getInt i = .error .IndexOutOfRange ∧ c.isNull i = .error .IndexOutOfRange := by
  unfold Column.getInt Column.isNull
  rw [if_pos h, if_pos h]
  exact ⟨rfl, rfl⟩

/-- Witness for C6: reading index `-1` of the three-row column `2,3,5`
fails with `IndexOutOfRange` on both accessors. -/
theorem accessor_out_of_range_witness :
    ((-1 : Int) < 0 ∨ ((fromInts [2, 3, 5]).rowCount : Int) ≤ -1) ∧
    (fromInts [2, 3, 5]).getInt (-1) = .error .IndexOutOfRange ∧
    (fromInts [2, 3, 5]).isNull (-1) = .error .IndexOutOfRange :=
  ⟨by decide, accessor_out_of_range (fromInts [2, 3, 5]) (-1) (by decide)⟩

/-- Counterexample to C3 as stated: a zero-length bulk append on a
builder whose cursor has reached capacity does not fail - per the spec's
own rule it only fails when `cursor + length > capacity` - it succeeds
and leaves the builder unchanged. -/
theorem appendBulk_empty_at_capacity :
    (Builder.create 0).cursor = (Builder.create 0).capacity ∧
    (Builder.create 0).appendBulk [] none = .ok (Builder.create 0) ∧
    (Builder.create 0).appendBulk [] none ≠ .error .CapacityExceeded := by
  refine ⟨rfl, rfl, ?_⟩
  intro h
  simp [Builder.appendBulk, Builder.create, Builder.cursor] at h

/-- C3 as amended: on a builder whose cursor has reached capacity, a
single append, a null append, and any bulk append of at least one element
fail with `CapacityExceeded`; a zero-length bulk append succeeds and
returns the builder unchanged.  All operations are pure (they return a
new builder or an error), so the prior state is observable unchanged after
any failing call. -/
theorem append_at_capacity (b : Builder) (v : Int) (srcData : List Nat)
    (srcValidity : Option (List Bool)) (h : b.cursor = b.capacity) :
    b.append v = .error .CapacityExceeded ∧
    b.appendNull = .error .CapacityExceeded ∧
    (0 < srcData.length → b.appendBulk srcData srcValidity = .error .CapacityExceeded) ∧
    b.appendBulk [] srcValidity = .ok b := by
  refine ⟨?_, ?_, ?_, ?_⟩
  · unfold Builder.append
    rw [if_pos h]
  · unfold Builder.appendNull
    rw [if_pos h]
  · intro hlen
    simp only [Builder.appendBulk]
    rw [if_pos (by omega)]
  · obtain ⟨cap, data, validity, nc⟩ := b
    simp only [Builder.cursor] at h
    cases validity <;> cases srcValidity <;>
      simp [Builder.appendBulk, Builder.cursor, count_zero_bits, countFalse, copyBits, h]

/-- Witness for the amended C3: a capacity-2 builder filled by
`append(2); append_null()`: one more append, null append, or two-element
bulk append fails with `CapacityExceeded`; the empty bulk append returns
the builder unchanged. -/
theorem append_at_capacity_witness :
    (mkBuilder 2 [AppendOp.val 2, AppendOp.null]).cursor
      = (mkBuilder 2 [AppendOp.val 2, AppendOp.null]).capacity ∧
    ((mkBuilder 2 [AppendOp.val 2, AppendOp.null]).append 5 = .error .CapacityExceeded ∧
     (mkBuilder 2 [AppendOp.val 2, AppendOp.null]).appendNull = .error .CapacityExceeded ∧
     (0 < [5, 4].length →
       (mkBuilder 2 [AppendOp.val 2, AppendOp.null]).appendBulk [5, 4] none
         = .error .CapacityExceeded) ∧
     (mkBuilder 2 [AppendOp.val 2, AppendOp.null]).appendBulk [] none
       = .ok (mkBuilder 2 [AppendOp.val 2, AppendOp.null])) :=
  ⟨by decide,
   append_at_capacity (mkBuilder 2 [AppendOp.val 2, AppendOp.null]) 5 [5, 4] none (by decide)⟩

/-- C1: bulk-append round-trip.  For any destination builder pre-filled
with `p` append calls and any source column built from `capacity - p`
calls, `append_bulk` succeeds and after `build`: every index `i < p` keeps
the pre-fill's null status and stored value, every index `i >= p` matches
the source at `i - p`, and every validity bit beyond the final logical
length, up to the allocated bitmap size, reads valid. -/
theorem append_bulk_roundtrip (capacity scap : Nat) (ops srcOps : List AppendOp)
    (dstB srcB : Builder)
    (hp : ops.length <= capacity)
    (hs : srcOps.length = capacity - ops.length)
    (hscap : srcOps.length <= scap)
    (hdst : runOps capacity ops = .ok dstB)
    (hsrc : runOps scap srcOps = .ok srcB) :
    ∃ b2 : Builder, dstB.appendVector (Builder.build srcB) = .ok b2 ∧
      (Builder.build b2).rowCount = capacity ∧
      (∀ i, i < ops.length →
        (Builder.build b2).isNullU i = (ops.getD i (.val 0)).isNullOp ∧
        (Builder.build b2).data.getD i 0 = (ops.getD i (.val 0)).storedBits) ∧
      (∀ k, k < srcOps.length →
        (Builder.build b2).isNullU (ops.length + k) = (Builder.build srcB).isNullU k ∧
        (Builder.build b2).data.getD (ops.length + k) 0
          = (Builder.build srcB).data.getD k 0) ∧
      (∀ bm, (Builder.build b2).validity = some bm →
        ∀ i, (Builder.build b2).rowCount <= i → i < bm.length →
          bm.getD i true = true) := by
  rw [runOps_eq capacity ops hp] at hdst
  obtain rfl : mkBuilder capacity ops = dstB := Except.ok.inj hdst
  rw [runOps_eq scap srcOps hscap] at hsrc
  obtain rfl : mkBuilder scap srcOps = srcB := Except.ok.inj hsrc
  have hfit : ops.length + srcOps.length <= capacity := by omega
  have happlen : (ops ++ srcOps).length <= capacity := by simp; omega
  refine ⟨mkBuilder capacity (ops ++ srcOps),
    appendBulk_mkBuilder capacity scap ops srcOps hfit hscap, ?_, ?_, ?_, ?_⟩
  · simp only [Builder.build, Column.rowCount, mkBuilder, List.length_map,
      List.length_append]
    omega
  · intro i hi
    constructor
    · rw [mkBuilder_isNullU capacity (ops ++ srcOps) i happlen, getD_append_lt _ hi]
    · show ((ops ++ srcOps).map AppendOp.storedBits).getD i 0 = _
      rw [storedBits_getD, getD_append_lt _ hi]
  · intro k hk
    have hsub : ops.length + k - ops.length = k := by omega
    constructor
    · rw [mkBuilder_isNullU capacity (ops ++ srcOps) (ops.length + k) happlen,
        mkBuilder_isNullU scap srcOps k hscap,
        @getD_append_ge AppendOp ops srcOps (ops.length + k) (.val 0) (by omega), hsub]
    · show ((ops ++ srcOps).map AppendOp.storedBits).getD (ops.length + k) 0
        = (srcOps.map AppendOp.storedBits).getD k 0
      rw [storedBits_getD, storedBits_getD,
        @getD_append_ge AppendOp ops srcOps (ops.length + k) (.val 0) (by omega), hsub]
  · intro bm hbm i hrow hlen
    by_cases hany : (ops ++ srcOps).any AppendOp.isNullOp
    · simp only [Builder.build, mkBuilder, hany, if_true] at hbm
      obtain rfl : bitmapOf capacity (ops ++ srcOps) = bm := Option.some.inj hbm
      apply bitmapOf_getD_true
      simp only [Builder.build, Column.rowCount, mkBuilder, List.length_map] at hrow
      exact hrow
    · have hany0 : (ops ++ srcOps).any AppendOp.isNullOp = false := by simpa using hany
      simp [Builder.build, mkBuilder, hany0] at hbm

set_option maxRecDepth 8000 in
/-- Witness for C1: destination pre-filled with `append(3)` at capacity 2,
source built from a single `append_null`; all three round-trip clauses
hold for the resulting two-row column. -/
theorem append_bulk_roundtrip_witness :
    ([AppendOp.val 3].length <= 2 ∧
     [AppendOp.null].length = 2 - [AppendOp.val 3].length ∧
     [AppendOp.null].length <= 1 ∧
     runOps 2 [AppendOp.val 3] = .ok (mkBuilder 2 [AppendOp.val 3]) ∧
     runOps 1 [AppendOp.null] = .ok (mkBuilder 1 [AppendOp.null])) ∧
    (∃ b2 : Builder,
      (mkBuilder 2 [AppendOp.val 3]).appendVector
          (Builder.build (mkBuilder 1 [AppendOp.null])) = .ok b2 ∧
      (Builder.build b2).rowCount = 2 ∧
      (∀ i, i < [AppendOp.val 3].length →
        (Builder.build b2).isNullU i = ([AppendOp.val 3].getD i (.val 0)).isNullOp ∧
        (Builder.build b2).data.getD i 0 = ([AppendOp.val 3].getD i (.val 0)).storedBits) ∧
      (∀ k, k < [AppendOp.null].length →
        (Builder.build b2).isNullU ([AppendOp.val 3].length + k)
          = (Builder.build (mkBuilder 1 [AppendOp.null])).isNullU k ∧
        (Builder.build b2).data.getD ([AppendOp.val 3].length + k) 0
          = (Builder.build (mkBuilder 1 [AppendOp.null])).data.getD k 0) ∧
      (∀ bm, (Builder.build b2).validity = some bm →
        ∀ i, (Builder.build b2).rowCount <= i → i < bm.length →
          bm.getD i true = true)) :=
  ⟨⟨by decide, by decide, by decide, by decide, by decide⟩,
   append_bulk_roundtrip 2 1 [AppendOp.val 3] [AppendOp.null]
     (mkBuilder 2 [AppendOp.val 3]) (mkBuilder 1 [AppendOp.null])
     (by decide) (by decide) (by decide) (by decide) (by decide)⟩

/-! Nested columns and null superimposition (spec section 4.4; the
implementation of `cudf::structs::superimpose_nulls` is declared but not
defined under src, so the algorithm is modelled from the spec and from
the declaration's documented contract). -/

/-- Modelled from the spec: a nested column tree (spec section 3).
`prim` is a fixed-width leaf; `strct` holds one child per field; `vlist`
is a list/string column whose per-row recorded element lengths stand for
the spans `offsets[r+1] - offsets[r]` of its offset metadata (its
flattened child is not recursed into by superimposition). -/
inductive NColumn where
  | prim (data : List Nat) (validity : Option (List Bool)) (nullCount : Nat)
  | strct (rowCount : Nat) (validity : Option (List Bool)) (nullCount : Nat)
      (children : List NColumn)
  | vlist (lengths : List Nat) (validity : Option (List Bool)) (nullCount : Nat)
      (child : NColumn)

def NColumn.rowCount : NColumn → Nat
  | .prim data _ _ => data.length
  | .strct rc _ _ _ => rc
  | .vlist lens _ _ _ => lens.length

def NColumn.nullCount : NColumn → Nat
  | .prim _ _ nc => nc
  | .strct _ _ nc _ => nc
  | .vlist _ _ nc _ => nc

def NColumn.validity : NColumn → Option (List Bool)
  | .prim _ v _ => v
  | .strct _ v _ _ => v
  | .vlist _ v _ _ => v

/-- Bit `i` of an optional validity bitmap; absent means all-valid. -/
def oldValidBit : Option (List Bool) → Nat → Bool
  | none, _ => true
  | some bm, i => bm.getD i true

/-- Modelled from the spec: step 1 of section 4.4 - the combined validity
`c.validity AND mask` bitwise over the mask's bit range (an absent
column validity is all-1s for the AND). -/
def combineValidity (v : Option (List Bool)) (mask : List Bool) : List Bool :=
  (List.range mask.length).map (fun i => mask.getD i true && oldValidBit v i)

/-- Modelled from the spec: step 4 of section 4.4 and the declaration's
contract - every null row of a list/string column has its recorded
element length forced to 0 ("null implies empty"). -/
def sanitizeLengths (lens : List Nat) (nv : List Bool) : List Nat :=
  (List.range lens.length).map (fun r => if nv.getD r true then lens.getD r 0 else 0)

mutual
/-- Modelled from the spec: the recursive body of `superimpose_nulls`
(section 4.4): combine the mask into the column's own validity and
recompute the null count by population count; recurse into struct
children with the combined validity; sanitize list/string rows; do not
recurse into a list/string's flattened child. -/
def superimposeRec (mask : List Bool) (c : NColumn) : NColumn :=
  match c with
  | .prim data v _ =>
      let nv := combineValidity v mask
      .prim data (some nv) (countFalse nv)
  | .strct rc v _ children =>
      let nv := combineValidity v mask
      .strct rc (some nv) (countFalse nv) (superimposeChildren nv children)
  | .vlist lens v _ child =>
      let nv := combineValidity v mask
      .vlist (sanitizeLengths lens nv) (some nv) (countFalse nv) child

/-- Recursion of `superimposeRec` over the children of a struct column,
each receiving the struct's combined validity (spec section 4.4 step 3). -/
def superimposeChildren (mask : List Bool) (cs : List NColumn) : List NColumn :=
  match cs with
  | [] => []
  | c :: rest => superimposeRec mask c :: superimposeChildren mask rest
end

/-- Modelled from the spec: `superimpose_nulls` (section 4.4 and the
declaration in src): fails with `SizeMismatch` when the mask's bit length
does not correspond to the column's row count, otherwise applies the
recursive combination; the caller-supplied `maskNullCount` is never
trusted (the null count is recomputed by population count). -/
def superimpose_nulls (mask : List Bool) (maskNullCount : Nat) (c : NColumn) :
    Except CudfError NColumn :=
  if mask.length = c.rowCount then .ok (superimposeRec mask c) else .error .SizeMismatch

/-- Descendant lookup through struct nesting: follow a path of child
indices across struct nodes. -/
def getDescendant : List Nat → NColumn → Option NColumn
  | [], c => some c
  | i :: p, .strct _ _ _ children =>
    match children[i]? with
    | some ch => getDescendant p ch
    | none => none
  | _ :: _, .prim _ _ _ => none
  | _ :: _, .vlist _ _ _ _ => none

theorem combineValidity_getD_false {v : Option (List Bool)} {mask : List Bool} {r : Nat}
    (h : mask.getD r true = false) :
    (combineValidity v mask).getD r true = false := by
  have hr : r < mask.length := getD_true_false_lt h
  unfold combineValidity
  rw [getD_rangeMap _ _ hr, h]
  rfl

theorem sanitizeLengths_getD_zero {lens : List Nat} {nv : List Bool} {r : Nat}
    (h : nv.getD r true = false) :
    (sanitizeLengths lens nv).getD r 0 = 0 := by
  by_cases hr : r < lens.length
  · unfold sanitizeLengths
    rw [getD_rangeMap _ _ hr, h]
    simp
  · rw [getD_of_ge _ (by simp [sanitizeLengths]; omega)]

theorem superimposeChildren_getElem? (mask : List Bool) (cs : List NColumn) (i : Nat) :
    (superimposeChildren mask cs)[i]? = (cs[i]?).map (superimposeRec mask) := by
  induction cs generalizing i with
  | nil => simp [superimposeChildren]
  | cons c rest ih =>
    cases i with
    | zero => simp [superimposeChildren]
    | succ n => simp [superimposeChildren, ih]

/-- If the supplied mask nulls row `r`, then after the recursive
superimposition every list/string column reachable through struct
nesting records element length 0 at row `r`. -/
theorem superimposeRec_null_implies_empty (r : Nat) (path : List Nat) :
    ∀ (mask : List Bool) (c : NColumn) (lens : List Nat) (v : Option (List Bool))
      (nc : Nat) (child : NColumn),
      mask.getD r true = false →
      getDescendant path (superimposeRec mask c) = some (.vlist lens v nc child) →
      lens.getD r 0 = 0 := by
  induction path with
  | nil =>
    intro mask c lens v nc child hm hdesc
    cases c with
    | prim data v0 nc0 => simp [getDescendant, superimposeRec] at hdesc
    | strct rc v0 nc0 children => simp [getDescendant, superimposeRec] at hdesc
    | vlist lens0 v0 nc0 ch0 =>
      simp only [getDescendant, superimposeRec, Option.some.injEq,
        NColumn.vlist.injEq] at hdesc
      obtain ⟨h1, h2, h3, h4⟩ := hdesc
      rw [← h1]
      exact sanitizeLengths_getD_zero (combineValidity_getD_false hm)
  | cons j p ih =>
    intro mask c lens v nc child hm hdesc
    cases c with
    | prim data v0 nc0 => simp [getDescendant, superimposeRec] at hdesc
    | vlist lens0 v0 nc0 ch0 => simp [getDescendant, superimposeRec] at hdesc
    | strct rc v0 nc0 children =>
      simp only [superimposeRec, getDescendant] at hdesc
      rw [superimposeChildren_getElem?] at hdesc
      cases hch : children[j]? with
      | none => rw [hch] at hdesc; simp at hdesc
      | some ch =>
        rw [hch] at hdesc
        simp only [Option.map_some'] at hdesc
        exact ih (combineValidity v0 mask) ch lens v nc child
          (combineValidity_getD_false hm) hdesc

/-- C2: after superimposing any mask that nulls row `r` onto a column,
every list/string descendant reachable through struct nesting has
recorded element length 0 at row `r`, regardless of its prior length. -/
theorem superimpose_null_implies_empty (mask : List Bool) (mnc r : Nat)
    (c c2 : NColumn) (path : List Nat) (lens : List Nat) (v : Option (List Bool))
    (nc : Nat) (child : NColumn)
    (hok : superimpose_nulls mask mnc c = .ok c2)
    (hr : mask.getD r true = false)
    (hdesc : getDescendant path c2 = some (.vlist lens v nc child)) :
    lens.getD r 0 = 0 := by
  unfold superimpose_nulls at hok
  by_cases hsz : mask.length = c.rowCount
  · rw [if_pos hsz] at hok
    obtain rfl : superimposeRec mask c = c2 := Except.ok.inj hok
    exact superimposeRec_null_implies_empty r path mask c lens v nc child hr hdesc
  · rw [if_neg hsz] at hok
    exact absurd hok (by simp)

/-- Witness for C2: a struct of two rows with a list child whose row 1
had recorded length 7; a mask nulling row 1 forces that length to 0. -/
theorem superimpose_null_implies_empty_witness :
    (superimpose_nulls [true, false] 1
        (.strct 2 none 0 [.vlist [5, 7] none 0 (.prim [] none 0)])
      = .ok (.strct 2 (some [true, false]) 1
          [.vlist [5, 0] (some [true, false]) 1 (.prim [] none 0)]) ∧
     ([true, false] : List Bool).getD 1 true = false ∧
     getDescendant [0]
        (.strct 2 (some [true, false]) 1
          [.vlist [5, 0] (some [true, false]) 1 (.prim [] none 0)])
      = some (.vlist [5, 0] (some [true, false]) 1 (.prim [] none 0))) ∧
    ([5, 0] : List Nat).getD 1 0 = 0 :=
  ⟨⟨rfl, by decide, rfl⟩,
   superimpose_null_implies_empty [true, false] 1 1
     (.strct 2 none 0 [.vlist [5, 7] none 0 (.prim [] none 0)])
     (.strct 2 (some [true, false]) 1
       [.vlist [5, 0] (some [true, false]) 1 (.prim [] none 0)])
     [0] [5, 0] (some [true, false]) 1 (.prim [] none 0)
     rfl (by decide) rfl⟩

/-- C7: null superimposition fails with `SizeMismatch` exactly when the
mask's bit length does not correspond to the column's row count; for a
corresponding mask it is total - it always succeeds. -/
theorem superimpose_size_check (mask : List Bool) (mnc : Nat) (c : NColumn) :
    (mask.length ≠ c.rowCount → superimpose_nulls mask mnc c = .error .SizeMismatch) ∧
    (mask.length = c.rowCount →
      superimpose_nulls mask mnc c = .ok (superimposeRec mask c)) := by
  constructor
  · intro h
    unfold superimpose_nulls
    rw [if_neg h]
  · intro h
    unfold superimpose_nulls
    rw [if_pos h]

/-- Witness for C7: a one-bit mask on a two-row column fails with
`SizeMismatch`; a two-bit all-valid mask succeeds (with zero new null
count). -/
theorem superimpose_size_check_witness :
    (([true] : List Bool).length ≠ (NColumn.prim [1, 2] none 0).rowCount ∧
     superimpose_nulls [true] 0 (.prim [1, 2] none 0) = .error .SizeMismatch) ∧
    (([true, true] : List Bool).length = (NColumn.prim [1, 2] none 0).rowCount ∧
     superimpose_nulls [true, true] 0 (.prim [1, 2] none 0)
       = .ok (superimposeRec [true, true] (.prim [1, 2] none 0))) :=
  ⟨⟨by decide, (superimpose_size_check [true] 0 (.prim [1, 2] none 0)).1 (by decide)⟩,
   ⟨by decide, (superimpose_size_check [true, true] 0 (.prim [1, 2] none 0)).2 (by decide)⟩⟩

/-- C8: the null count of a superimposed column is the population count
of zero bits of the combined (ANDed) validity over the row range,
recomputed by the operation itself; the result never depends on the
caller-provided mask null count. -/
theorem superimpose_null_count_recomputed (mask : List Bool) (mnc mnc2 : Nat)
    (c c2 : NColumn) (hok : superimpose_nulls mask mnc c = .ok c2) :
    c2.nullCount = countFalse (combineValidity c.validity mask) ∧
    superimpose_nulls mask mnc2 c = .ok c2 := by
  refine ⟨?_, hok⟩
  unfold superimpose_nulls at hok
  by_cases hsz : mask.length = c.rowCount
  · rw [if_pos hsz] at hok
    obtain rfl : superimposeRec mask c = c2 := Except.ok.inj hok
    cases c <;> simp [superimposeRec, NColumn.nullCount, NColumn.validity]
  · rw [if_neg hsz] at hok
    exact absurd hok (by simp)

/-- Witness for C8: superimposing `[true, false]` with a bogus caller
count of 5 yields recomputed null count 1, and the same result as caller
count 0. -/
theorem superimpose_null_count_recomputed_witness :
    (superimpose_nulls [true, false] 5 (.prim [1, 2] none 0)
       = .ok (.prim [1, 2] (some [true, false]) 1)) ∧
    ((NColumn.prim [1, 2] (some [true, false]) 1).nullCount
       = countFalse (combineValidity (NColumn.prim [1, 2] none 0).validity [true, false]) ∧
     superimpose_nulls [true, false] 0 (.prim [1, 2] none 0)
       = .ok (.prim [1, 2] (some [true, false]) 1)) :=
  ⟨rfl,
   superimpose_null_count_recomputed [true, false] 5 0
     (.prim [1, 2] none 0) (.prim [1, 2] (some [true, false]) 1) rfl⟩

/-- C9: building from the unsigned inputs `0xfedcba98, 0x80000000, 5`,
reading each element back through the signed view, and converting the
signed values back to unsigned reproduces exactly the original inputs;
and the stored column is identical, bit pattern for bit pattern, to the
one built from the equivalent signed two's-complement values
`-19088744, -2147483648, 5`. -/
theorem unsigned_roundtrip_bit_pattern :
    ((fromUnsignedInts [0xfedcba98, 0x80000000, 5]).getInt 0).map toUnsignedLong
      = .ok 0xfedcba98 ∧
    ((fromUnsignedInts [0xfedcba98, 0x80000000, 5]).getInt 1).map toUnsignedLong
      = .ok 0x80000000 ∧
    ((fromUnsignedInts [0xfedcba98, 0x80000000, 5]).getInt 2).map toUnsignedLong
      = .ok 5 ∧
    fromUnsignedInts [0xfedcba98, 0x80000000, 5]
      = fromInts [-19088744, -2147483648, 5] :=
  ⟨rfl, rfl, rfl, rfl⟩

end Cudf
